import Mathlib

/-! # work-break-timer: the settings panel (`settings.go`)

A shallow embedding of `settings.go` and of the few library routines it calls
(`strconv.ParseInt`, the `%d` verb of `fmt`, the toolkit's preference store,
data bindings and entry widget), followed by the theorems that settle the
claims made about it.

Conventions.
* A Go `string` is a sequence of bytes: `GoString := List Nat`, each element a
  byte value.  `str` turns a Lean string literal into its UTF-8 bytes.
* `int64`, `int` and `rune` values are `Int`; `uint64` values are `Nat`, with an
  explicit `% 2 ^ 64` wherever the Go code could wrap.
* A Go `error` returned by the validator is `Option GoString`: `none` is `nil`,
  `some msg` an error whose text is `msg`.
-/

namespace WorkBreakTimer

/-! ## Go strings -/

/-- A Go `string`: an immutable sequence of bytes. -/
abbrev GoString := List Nat

/-- The UTF-8 bytes of a Lean string, the contents of the Go literal that is
written the same way. -/
def str (s : String) : GoString :=
  (s.data.flatMap String.utf8EncodeChar).map UInt8.toNat

/-! ## `strconv` (Go standard library, `strconv/atoi.go`)

`settings.go` calls `strconv.ParseInt(text, 10, 64)` only, so `base` and
`bitSize` are the constants below; with `base = 10` the flag `base0` of
`ParseUint` is false, its prefix detection and its underscore handling are
never entered. -/

/-- The two sentinel errors a `*strconv.NumError` can wrap here. -/
inductive NumError where
  | ErrSyntax
  | ErrRange
  deriving DecidableEq, Repr

/-- The `base` argument of every call in `settings.go`. -/
def base : Nat := 10

/-- The `bitSize` argument of every call in `settings.go`. -/
def bitSize : Nat := 64

/-- The constant `maxUint64 = 1<<64 - 1`. -/
def maxUint64 : Nat := 2 ^ 64 - 1

/-- The helper `lower(c) = c | ('x' - 'X')`. -/
def lower (c : Nat) : Nat := c ||| (120 - 88)

/-- The body of the `for _, c := range []byte(s)` loop of `ParseUint`, started
with the accumulator `n`; `cutoff = maxUint64/10 + 1` and
`maxVal = uint64(1)<<uint(bitSize) - 1`.  The result is the pair `(value, err)` that
`ParseUint` returns. -/
def ParseUintLoop (cutoff maxVal : Nat) : List Nat → Nat → Nat × Option NumError
  | [], n => (n, none)
  | c :: cs, n =>
    let d? : Option Nat :=
      if 48 ≤ c ∧ c ≤ 57 then some (c - 48)
      else if 97 ≤ lower c ∧ lower c ≤ 122 then some ((lower c - 97 + 10) % 256)
      else none
    match d? with
    | none => (0, some NumError.ErrSyntax)
    | some d =>
      if d ≥ base % 256 then (0, some NumError.ErrSyntax)
      else if n ≥ cutoff then (maxVal, some NumError.ErrRange)
      else
        let n10 := n * base % 2 ^ 64
        let n1 := (n10 + d) % 2 ^ 64
        if n1 < n10 ∨ n1 > maxVal then (maxVal, some NumError.ErrRange)
        else ParseUintLoop cutoff maxVal cs n1

/-- The function `strconv.ParseUint(s, 10, 64)`. -/
def ParseUint (s : GoString) : Nat × Option NumError :=
  if s = [] then (0, some NumError.ErrSyntax)
  else
    let cutoff := maxUint64 / 10 + 1
    let maxVal := ((1 <<< bitSize) % 2 ^ 64 + 2 ^ 64 - 1) % 2 ^ 64
    ParseUintLoop cutoff maxVal s 0

/-- The conversion `int64(un)` of a `uint64`. -/
def toInt64 (un : Nat) : Int :=
  if un % 2 ^ 64 < 2 ^ 63 then (un % 2 ^ 64 : Nat) else (un % 2 ^ 64 : Nat) - 2 ^ 64

/-- Negation of an `int64`, wrapping at the minimum value. -/
def negInt64 (n : Int) : Int :=
  (-n + 2 ^ 63) % 2 ^ 64 - 2 ^ 63

/-- The function `strconv.ParseInt(s, 10, 64)`: the pair `(i, err)`. -/
def ParseInt (s : GoString) : Int × Option NumError :=
  match s with
  | [] => (0, some NumError.ErrSyntax)
  | c0 :: rest =>
    let neg : Bool := c0 ≠ 43 ∧ c0 = 45
    let s1 : GoString := if c0 = 43 then rest else if c0 = 45 then rest else c0 :: rest
    let r := ParseUint s1
    let un := r.1
    let err := r.2
    if err ≠ none ∧ err ≠ some NumError.ErrRange then (0, err)
    else
      let cutoff : Nat := 2 ^ (bitSize - 1)
      if !neg ∧ un ≥ cutoff then ((cutoff : Int) - 1, some NumError.ErrRange)
      else if neg ∧ un > cutoff then (-(cutoff : Int), some NumError.ErrRange)
      else
        let n := toInt64 un
        (if neg then negInt64 n else n, none)

/-! ## `fmt`: the verb `%d` (Go standard library, `fmt/format.go`) -/

/-- The digit loop of `fmtInteger` at base 10, writing the buffer `buf` from
the right: `for u >= 10 { next := u / 10; buf[i] = '0' + u - next*10; u = next }`
followed by the last digit `buf[i] = digits[u]`.  `fuel` bounds the number of
iterations; the loop divides `u` by 10 each time, so `fuel = u` is never
exhausted. -/
def fmtLoop : Nat → Nat → List Nat → List Nat
  | 0, u, buf => (48 + u) :: buf
  | fuel + 1, u, buf =>
    if u ≥ 10 then
      let next := u / 10
      fmtLoop fuel next ((48 + u - next * 10) :: buf)
    else (48 + u) :: buf

/-- The decimal digits `fmtInteger` writes for the magnitude `u`. -/
def fmtDigits (u : Nat) : List Nat := fmtLoop u u []

/-- What `%d` prints for an `int64`: `fmtInteger(uint64(v), 10, true, ...)`
without flags. -/
def fmtInteger (v : Int) : GoString :=
  let u : Nat := (v % 2 ^ 64).toNat
  let negative : Bool := toInt64 u < 0
  let u := if negative then (2 ^ 64 - u) % 2 ^ 64 else u
  (if negative then [45] else []) ++ fmtDigits u

/-! ## `settings.go`: the range validator -/

/-- The function `NewRangeValidator(min, max)`: the validator it returns,
applied to `text`. -/
def NewRangeValidator (min max : Int) (text : GoString) : Option GoString :=
  let r := ParseInt text
  let v := r.1
  let err := r.2
  if err ≠ none then some (str "not a valid number")
  else if v < min then some (str "must be greater than " ++ fmtInteger min)
  else if v > max then some (str "must be lesser than " ++ fmtInteger max)
  else none

/-! ## `settings.go`: the preference store -/

/-- The struct `Pref`. -/
structure Pref where
  workMinutes : Int
  breakMinutes : Int
  forceWindowFocusDuration : Int
  deriving DecidableEq, Repr

/-- Modelled from the spec: the toolkit's preference store behind
`fyne.CurrentApp().Preferences()`, which is not under `src/`.  The spec treats
it as a service "offering get/set of named integers": a store maps a key to the
integer last set under it, or to nothing when the key is unset. -/
abbrev Preferences := String → Option Int

/-- The store in which no key is set. -/
def Preferences.empty : Preferences := fun _ => none

/-- Modelled from the spec: `Preferences().IntWithFallback(key, fallback)`, the
"typed get-with-default": the stored integer, or `fallback` when the key is
unset. -/
def Preferences.IntWithFallback (p : Preferences) (key : String) (fallback : Int) : Int :=
  match p key with
  | some v => v
  | none => fallback

/-- Modelled from the spec: `Preferences().SetInt(key, value)`, the "set"
operation: afterwards `key` holds `value`, every other key is as before. -/
def Preferences.SetInt (p : Preferences) (key : String) (value : Int) : Preferences :=
  fun k => if k = key then some value else p k

/-- The function `Load()`, reading the store `app`. -/
def Load (app : Preferences) : Pref :=
  let workMinutes := app.IntWithFallback "workMinutes" 25
  let breakMinutes := app.IntWithFallback "breakMinutes" 5
  let forceWindowFocusDuration := app.IntWithFallback "forceWindowFocusDuration" 60
  { workMinutes := workMinutes
    breakMinutes := breakMinutes
    forceWindowFocusDuration := forceWindowFocusDuration }

/-- The function `Save(pref)`, from the store `app` to the store it leaves. -/
def Save (pref : Pref) (app : Preferences) : Preferences :=
  let app := app.SetInt "workMinutes" pref.workMinutes
  let app := app.SetInt "breakMinutes" pref.breakMinutes
  let app := app.SetInt "forceWindowFocusDuration" pref.forceWindowFocusDuration
  app

/-! ## `settings.go`: the form -/

/-- Modelled from the spec: the host functions `disableAllTimers`,
`loadSetting` and `startWorkTimer`, which `settings.go` calls and which are
not under `src/`.  The spec lists them as external collaborators that "pause
all timers, reload settings, and start the work timer": they act on the
state `H` of the timer engine, `loadSetting` reading the preference store. -/
structure Host (H : Type) where
  disableAllTimers : H → H
  loadSetting : Preferences → H → H
  startWorkTimer : H → H

/-- What the submit handler acts on: the preference store and the state of the
timer engine. -/
structure World (H : Type) where
  prefs : Preferences
  host : H

/-- One row of the form with an integer entry: its label, its hint and the
validator `newIntegerFormItem` attaches to the entry (from a goroutine, 100 ms
after creating it). -/
structure FormItem where
  Text : GoString
  HintText : GoString
  Validator : GoString → Option GoString

/-- The function `newIntegerFormItem(bind, entryText, hintText, validator)`;
`value` is what `bind.Get()` returns, and `hintText` is given as the text
before and the text after its `%d`. -/
def newIntegerFormItem (value : Int) (entryText : GoString) (hintText : GoString × GoString)
    (validator : GoString → Option GoString) : FormItem :=
  { Text := entryText
    HintText := hintText.1 ++ fmtInteger value ++ hintText.2
    Validator := validator }

/-- The form `makeForm` builds: the three data bindings its submit handler
captures (a `binding.Int` is the integer it currently holds; `Set` replaces
it, `Get` reads it), and the three integer rows.  The fourth row, a read-only
label bound to `leftTimeDurationBinding`, has no entry and no validator. -/
structure Form where
  workMinutesBinding : Int
  breakMinutesBinding : Int
  forceWindowFocusDurationBinding : Int
  Items : List FormItem

/-- The function `makeForm()`, reading the store `app`. -/
def makeForm (app : Preferences) : Form :=
  let myPref := Load app
  let workMinutesBinding := myPref.workMinutes
  let breakMinutesBinding := myPref.breakMinutes
  let forceWindowFocusDurationBinding := myPref.forceWindowFocusDuration
  { workMinutesBinding := workMinutesBinding
    breakMinutesBinding := breakMinutesBinding
    forceWindowFocusDurationBinding := forceWindowFocusDurationBinding
    Items :=
      [ newIntegerFormItem workMinutesBinding (str "Work duration in minutes")
          (str "Default is: ", str " minutes.  ") (NewRangeValidator 0 999),
        newIntegerFormItem breakMinutesBinding (str "Break duration in minutes")
          (str "Default is: ", str " minutes.  ") (NewRangeValidator 0 999),
        newIntegerFormItem forceWindowFocusDurationBinding (str "Force Window Focus in seconds")
          (str "Default is: ", str " seconds.  ") (NewRangeValidator 0 999) ] }

/-- The closure `form.OnSubmit` that `makeForm` installs, run on the form in
its current state.  `time.Sleep(time.Second)` changes neither the store nor
the host; `go startWorkTimer()` is the last effect on the host. -/
def Form.OnSubmit {H : Type} (env : Host H) (form : Form) (w : World H) : World H :=
  let host := env.disableAllTimers w.host
  let workMinutes := form.workMinutesBinding
  let breakMinutes := form.breakMinutesBinding
  let forceWindowFocusDuration := form.forceWindowFocusDurationBinding
  let newPref : Pref :=
    { workMinutes := workMinutes
      breakMinutes := breakMinutes
      forceWindowFocusDuration := forceWindowFocusDuration }
  let prefs := Save newPref w.prefs
  let host := env.loadSetting prefs host
  let host := env.startWorkTimer host
  { prefs := prefs, host := host }

/-! ## `settings.go`: the integer entry -/

/-- A value of the interface `fyne.Shortcut`: a `*fyne.ShortcutPaste`, with the
content of its clipboard, or a shortcut of any other type, with its name. -/
inductive Shortcut where
  | ShortcutPaste (Clipboard : GoString)
  | Other (ShortcutName : GoString)
  deriving DecidableEq, Repr

/-- The embedded `widget.Entry`, a toolkit widget: its two input handlers, as
transitions of its state `σ`.  The methods of `integerEntry` below take it as
the argument `E` and the state of the entry as `e`. -/
structure Entry (σ : Type) where
  TypedRune : Int → σ → σ
  TypedShortcut : Shortcut → σ → σ

/-- The method `(*integerEntry).TypedRune`. -/
def integerEntry.TypedRune {σ : Type} (E : Entry σ) (r : Int) (e : σ) : σ :=
  if r = 48 ∨ r = 49 ∨ r = 50 ∨ r = 51 ∨ r = 52 ∨ r = 53 ∨ r = 54 ∨ r = 55 ∨ r = 56 ∨ r = 57 then
    E.TypedRune r e
  else e

/-- The method `(*integerEntry).TypedShortcut`. -/
def integerEntry.TypedShortcut {σ : Type} (E : Entry σ) (shortcut : Shortcut) (e : σ) : σ :=
  match shortcut with
  | Shortcut.Other _ => E.TypedShortcut shortcut e
  | Shortcut.ShortcutPaste content =>
    if (ParseInt content).2 = none then E.TypedShortcut shortcut e
    else e

/-- A call received by the underlying entry. -/
inductive Call where
  | TypedRune (r : Int)
  | TypedShortcut (shortcut : Shortcut)
  deriving DecidableEq, Repr

/-- An underlying entry that records every call forwarded to it, in order. -/
def recorder : Entry (List Call) :=
  { TypedRune := fun r log => log ++ [Call.TypedRune r]
    TypedShortcut := fun s log => log ++ [Call.TypedShortcut s] }

/-! ## Specification-side vocabulary -/

/-- The text with one leading `+` or `-`, if any, removed. -/
def unsigned (t : GoString) : GoString :=
  match t with
  | [] => []
  | c :: r => if c = 43 ∨ c = 45 then r else c :: r

/-- One or more ASCII digits `0`..`9` and nothing else. -/
def IsDigits (s : GoString) : Prop :=
  s ≠ [] ∧ ∀ c ∈ s, 48 ≤ c ∧ c ≤ 57

instance (s : GoString) : Decidable (IsDigits s) := by
  unfold IsDigits; exact inferInstance

/-- Follows the spec's words: a numeric string is an optional single leading
`+` or `-` followed by one or more ASCII digits `0`..`9`. -/
def IsNumeric (t : GoString) : Prop := IsDigits (unsigned t)

instance (t : GoString) : Decidable (IsNumeric t) := by
  unfold IsNumeric; exact inferInstance

/-- The base-10 value of a run of ASCII digits, as an unbounded natural
number, continuing from the value `a` of the digits already read. -/
def digitsValueFrom (a : Nat) (ds : List Nat) : Nat :=
  ds.foldl (fun a c => 10 * a + (c - 48)) a

/-- The base-10 value of a run of ASCII digits. -/
def digitsValue (ds : List Nat) : Nat := digitsValueFrom 0 ds

/-- The integer a numeric string denotes. -/
def numericValue (t : GoString) : Int :=
  if t.head? = some 45 then -(digitsValue (unsigned t) : Int) else (digitsValue (unsigned t) : Int)

/-- Follows the spec's words: the text parses as a base-10 integer in the
signed 64-bit range; `some v` is the value, `none` means it does not. -/
def parsesAs (t : GoString) : Option Int :=
  if IsNumeric t ∧ -(2 : Int) ^ 63 ≤ numericValue t ∧ numericValue t ≤ 2 ^ 63 - 1 then
    some (numericValue t)
  else none

/-- Follows the spec's words: the decimal text of an integer, as Lean prints
it: the digits of its magnitude, most significant first, after a `-` when it
is negative. -/
def decimal (v : Int) : GoString := str (toString v)

/-- The bytes of a list of characters. -/
def bytesOf (cs : List Char) : List Nat :=
  (cs.flatMap String.utf8EncodeChar).map UInt8.toNat

/-- The entry forwards the typed rune `r`: the underlying entry receives
exactly the call `TypedRune(r)`. -/
def runeForwarded (r : Int) : Prop :=
  integerEntry.TypedRune recorder r [] = [Call.TypedRune r]

instance (r : Int) : Decidable (runeForwarded r) := by
  unfold runeForwarded; exact inferInstance

/-- The entry forwards a paste of the clipboard content `c`: the underlying
entry receives exactly that shortcut. -/
def pasteForwarded (c : GoString) : Prop :=
  integerEntry.TypedShortcut recorder (Shortcut.ShortcutPaste c) []
    = [Call.TypedShortcut (Shortcut.ShortcutPaste c)]

instance (c : GoString) : Decidable (pasteForwarded c) := by
  unfold pasteForwarded; exact inferInstance

/-- Follows the spec's words: a value "within the accepted range 0..999". -/
def InRange (v : Int) : Prop := 0 ≤ v ∧ v ≤ 999

instance (v : Int) : Decidable (InRange v) := by
  unfold InRange; exact inferInstance

/-- Follows the spec's words: each of the three stored preferences is set, to
an integer within 0..999. -/
def StoredInRange (app : Preferences) : Prop :=
  ∀ key ∈ ["workMinutes", "breakMinutes", "forceWindowFocusDuration"],
    ∃ v, app key = some v ∧ InRange v

/-- The user edits the work-minutes entry: its binding is set to `w`, the
other two are untouched. -/
def Form.setWorkMinutes (form : Form) (w : Int) : Form :=
  { form with workMinutesBinding := w }

/-- The preferences a form currently shows: its three bound values. -/
def Form.bound (form : Form) : Pref :=
  { workMinutes := form.workMinutesBinding
    breakMinutes := form.breakMinutesBinding
    forceWindowFocusDuration := form.forceWindowFocusDurationBinding }

/-! ## Lemmas: `strconv.ParseInt` against its specification -/

theorem ParseUint_unfold (s : GoString) :
    ParseUint s = if s = [] then (0, some NumError.ErrSyntax)
      else ParseUintLoop 1844674407370955162 18446744073709551615 s 0 := rfl

theorem digitsValueFrom_ge (ds : List Nat) : ∀ a, a ≤ digitsValueFrom a ds := by
  induction ds with
  | nil => intro a; exact Nat.le_refl _
  | cons c cs ih =>
    intro a
    have h := ih (10 * a + (c - 48))
    simp only [digitsValueFrom, List.foldl_cons] at h ⊢
    omega

theorem ParseUintLoop_digits (cs : List Nat) :
    ∀ n, n < 2 ^ 64 → (∀ c ∈ cs, 48 ≤ c ∧ c ≤ 57) →
      ParseUintLoop 1844674407370955162 18446744073709551615 cs n =
        if digitsValueFrom n cs < 2 ^ 64 then (digitsValueFrom n cs, none)
        else (18446744073709551615, some NumError.ErrRange) := by
  induction cs with
  | nil =>
    intro n hn _
    have h : digitsValueFrom n [] = n := rfl
    rw [h, if_pos hn]; rfl
  | cons c cs ih =>
    intro n hn hd
    have hc : 48 ≤ c ∧ c ≤ 57 := hd c (List.mem_cons_self _ _)
    have hcs : ∀ x ∈ cs, 48 ≤ x ∧ x ≤ 57 := fun x hx => hd x (List.mem_cons_of_mem _ hx)
    have hge := digitsValueFrom_ge cs (10 * n + (c - 48))
    have hstep : digitsValueFrom n (c :: cs) = digitsValueFrom (10 * n + (c - 48)) cs := rfl
    rw [hstep]
    simp only [ParseUintLoop, hc, and_self, if_true, base]
    have hd10 : ¬ (c - 48 ≥ 10 % 256) := by omega
    rw [if_neg hd10]
    by_cases hcut : n ≥ 1844674407370955162
    · rw [if_pos hcut, if_neg (by omega)]
    · rw [if_neg hcut]
      have h10 : n * 10 % 2 ^ 64 = n * 10 := Nat.mod_eq_of_lt (by omega)
      rw [h10]
      by_cases hov : n * 10 + (c - 48) < 2 ^ 64
      · have h1 : (n * 10 + (c - 48)) % 2 ^ 64 = n * 10 + (c - 48) := Nat.mod_eq_of_lt hov
        rw [h1, if_neg (by omega), ih _ hov hcs]
        have e : n * 10 + (c - 48) = 10 * n + (c - 48) := by omega
        rw [e]
      · have h1 : (n * 10 + (c - 48)) % 2 ^ 64 = n * 10 + (c - 48) - 2 ^ 64 := by omega
        rw [h1, if_pos (by omega), if_neg (by omega)]

theorem ParseUintLoop_nondigit (c : Nat) (cs : List Nat) (n : Nat)
    (h : ¬ (48 ≤ c ∧ c ≤ 57)) :
    ParseUintLoop 1844674407370955162 18446744073709551615 (c :: cs) n
      = (0, some NumError.ErrSyntax) := by
  simp only [ParseUintLoop, h, if_false, base]
  by_cases hl : 97 ≤ lower c ∧ lower c ≤ 122
  · simp only [hl, and_self, if_true]
    rw [if_pos (by omega)]
  · simp only [hl, if_false]

theorem ParseUintLoop_digit_step (c : Nat) (cs : List Nat) (n : Nat)
    (h : 48 ≤ c ∧ c ≤ 57) :
    ParseUintLoop 1844674407370955162 18446744073709551615 (c :: cs) n
      = (18446744073709551615, some NumError.ErrRange) ∨
    ∃ n1, ParseUintLoop 1844674407370955162 18446744073709551615 (c :: cs) n
      = ParseUintLoop 1844674407370955162 18446744073709551615 cs n1 := by
  simp only [ParseUintLoop, h, and_self, if_true, base]
  rw [if_neg (by omega)]
  by_cases hcut : n ≥ 1844674407370955162
  · rw [if_pos hcut]; exact Or.inl rfl
  · rw [if_neg hcut]
    split
    · exact Or.inl rfl
    · exact Or.inr ⟨_, rfl⟩

theorem ParseUintLoop_shape (cs : List Nat) : ∀ n,
    (ParseUintLoop 1844674407370955162 18446744073709551615 cs n).2 = none ∨
    ParseUintLoop 1844674407370955162 18446744073709551615 cs n
      = (0, some NumError.ErrSyntax) ∨
    ParseUintLoop 1844674407370955162 18446744073709551615 cs n
      = (18446744073709551615, some NumError.ErrRange) := by
  induction cs with
  | nil => intro n; exact Or.inl rfl
  | cons c cs ih =>
    intro n
    by_cases h : 48 ≤ c ∧ c ≤ 57
    · rcases ParseUintLoop_digit_step c cs n h with e | ⟨n1, e⟩
      · exact Or.inr (Or.inr e)
      · rw [e]; exact ih n1
    · exact Or.inr (Or.inl (ParseUintLoop_nondigit c cs n h))

theorem ParseUintLoop_err_of_nondigit (cs : List Nat) : ∀ n,
    (∃ c ∈ cs, ¬ (48 ≤ c ∧ c ≤ 57)) →
    (ParseUintLoop 1844674407370955162 18446744073709551615 cs n).2 ≠ none := by
  induction cs with
  | nil => intro n ⟨c, hc, _⟩; cases hc
  | cons c cs ih =>
    intro n hex
    by_cases h : 48 ≤ c ∧ c ≤ 57
    · have hex2 : ∃ x ∈ cs, ¬ (48 ≤ x ∧ x ≤ 57) := by
        obtain ⟨x, hx, hnx⟩ := hex
        rcases List.mem_cons.mp hx with rfl | hx
        · exact absurd h hnx
        · exact ⟨x, hx, hnx⟩
      rcases ParseUintLoop_digit_step c cs n h with e | ⟨n1, e⟩
      · rw [e]; simp
      · rw [e]; exact ih n1 hex2
    · rw [ParseUintLoop_nondigit c cs n h]; simp

/-- The three shapes of the result of `ParseUint`. -/
theorem ParseUint_cases (s : GoString) :
    (IsDigits s ∧ digitsValue s < 2 ^ 64 ∧ ParseUint s = (digitsValue s, none)) ∨
    (IsDigits s ∧ 2 ^ 64 ≤ digitsValue s ∧
      ParseUint s = (18446744073709551615, some NumError.ErrRange)) ∨
    (¬ IsDigits s ∧ (ParseUint s = (0, some NumError.ErrSyntax) ∨
        ParseUint s = (18446744073709551615, some NumError.ErrRange))) := by
  rw [ParseUint_unfold]
  by_cases hs : s = []
  · subst hs
    exact Or.inr (Or.inr ⟨fun h => h.1 rfl, Or.inl rfl⟩)
  · rw [if_neg hs]
    by_cases hd : ∀ c ∈ s, 48 ≤ c ∧ c ≤ 57
    · have hloop := ParseUintLoop_digits s 0 (by omega) hd
      by_cases hv : digitsValue s < 2 ^ 64
      · refine Or.inl ⟨⟨hs, hd⟩, hv, ?_⟩
        rw [hloop]; exact if_pos hv
      · refine Or.inr (Or.inl ⟨⟨hs, hd⟩, by omega, ?_⟩)
        rw [hloop]; exact if_neg hv
    · refine Or.inr (Or.inr ⟨fun h => hd h.2, ?_⟩)
      have hex : ∃ c ∈ s, ¬ (48 ≤ c ∧ c ≤ 57) := by
        by_contra hno
        exact hd (fun c hc => by_contra (fun hn => hno ⟨c, hc, hn⟩))
      have hne := ParseUintLoop_err_of_nondigit s 0 hex
      rcases ParseUintLoop_shape s 0 with h | h | h
      · exact absurd h hne
      · exact Or.inl h
      · exact Or.inr h

/-- The function `ParseInt` on a non-empty string, in terms of the result of
`ParseUint` on the text after the sign. -/
theorem ParseInt_cons (c0 : Nat) (rest : List Nat) :
    ParseInt (c0 :: rest) =
      if (ParseUint (unsigned (c0 :: rest))).2 ≠ none ∧
          (ParseUint (unsigned (c0 :: rest))).2 ≠ some NumError.ErrRange then
        (0, (ParseUint (unsigned (c0 :: rest))).2)
      else if c0 ≠ 45 ∧ (ParseUint (unsigned (c0 :: rest))).1 ≥ 2 ^ 63 then
        (2 ^ 63 - 1, some NumError.ErrRange)
      else if c0 = 45 ∧ (ParseUint (unsigned (c0 :: rest))).1 > 2 ^ 63 then
        (-(2 ^ 63), some NumError.ErrRange)
      else
        (if c0 = 45 then negInt64 (toInt64 (ParseUint (unsigned (c0 :: rest))).1)
          else toInt64 (ParseUint (unsigned (c0 :: rest))).1, none) := by
  have hu : unsigned (c0 :: rest)
      = if c0 = 43 then rest else if c0 = 45 then rest else c0 :: rest := by
    simp only [unsigned]
    by_cases h1 : c0 = 43
    · simp [h1]
    · by_cases h2 : c0 = 45
      · simp [h2]
      · simp [h1, h2]
  rw [hu]
  by_cases h2 : c0 = 45
  · subst h2
    simp [ParseInt, bitSize]
  · simp [ParseInt, bitSize, h2]

theorem numericValue_cons (c0 : Nat) (rest : List Nat) :
    numericValue (c0 :: rest) =
      if c0 = 45 then -(digitsValue (unsigned (c0 :: rest)) : Int)
      else (digitsValue (unsigned (c0 :: rest)) : Int) := by
  simp [numericValue]

theorem toInt64_of_lt (V : Nat) (h : V < 2 ^ 63) : toInt64 V = (V : Int) := by
  unfold toInt64
  have h1 : V % 2 ^ 64 = V := Nat.mod_eq_of_lt (by omega)
  rw [h1, if_pos h]

theorem negInt64_toInt64 (V : Nat) (h : V ≤ 2 ^ 63) : negInt64 (toInt64 V) = -(V : Int) := by
  unfold negInt64 toInt64
  have h1 : V % 2 ^ 64 = V := Nat.mod_eq_of_lt (by omega)
  rw [h1]
  by_cases hlt : V < 2 ^ 63
  · rw [if_pos hlt]; omega
  · rw [if_neg hlt]
    have : V = 2 ^ 63 := by omega
    subst this
    decide

/-- The function `ParseInt` refines the spec-side reading `parsesAs`: it
returns `(v, nil)` exactly on the texts that denote an in-range `v`, and an
error on every other text. -/
theorem ParseInt_refines (t : GoString) :
    (∀ v, parsesAs t = some v → ParseInt t = (v, none)) ∧
    (parsesAs t = none → (ParseInt t).2 ≠ none) := by
  cases t with
  | nil =>
    have h : parsesAs [] = none := by decide
    rw [h]
    exact ⟨fun v hv => (by cases hv), fun _ => (by decide)⟩
  | cons c0 rest =>
    rw [ParseInt_cons]
    unfold parsesAs IsNumeric
    rw [numericValue_cons]
    rcases ParseUint_cases (unsigned (c0 :: rest)) with ⟨hd, hv, he⟩ | ⟨hd, hv, he⟩ | ⟨hd, he⟩
    · rw [he]
      generalize digitsValue (unsigned (c0 :: rest)) = V at hv ⊢
      simp only [hd, true_and, ne_eq, not_true_eq_false, false_and, if_false]
      by_cases h45 : c0 = 45
      · simp only [h45, if_true, not_true_eq_false, false_and, if_false, true_and]
        by_cases hr : V > 2 ^ 63
        · rw [if_pos hr, if_neg (by omega)]
          exact ⟨fun v hv => (by cases hv), fun _ => (by simp)⟩
        · rw [if_neg hr, if_pos (by omega), negInt64_toInt64 V (by omega)]
          exact ⟨fun v hv => (by cases hv; rfl), fun h => (by cases h)⟩
      · simp only [h45, if_false, not_false_eq_true, true_and, false_and]
        by_cases hr : V ≥ 2 ^ 63
        · rw [if_pos hr, if_neg (by omega)]
          exact ⟨fun v hv => (by cases hv), fun _ => (by simp)⟩
        · rw [if_neg hr, if_pos (by omega), toInt64_of_lt V (by omega)]
          exact ⟨fun v hv => (by cases hv; rfl), fun h => (by cases h)⟩
    · rw [he]
      generalize digitsValue (unsigned (c0 :: rest)) = V at hv ⊢
      simp only [hd, true_and, ne_eq, not_true_eq_false, and_false, if_false]
      have hnone : (if (-(2 : Int) ^ 63 ≤ (if c0 = 45 then -(V : Int) else (V : Int)) ∧
          (if c0 = 45 then -(V : Int) else (V : Int)) ≤ 2 ^ 63 - 1)
          then some (if c0 = 45 then -(V : Int) else (V : Int)) else none) = none := by
        apply if_neg
        by_cases h45 : c0 = 45
        · simp only [h45, if_true]; omega
        · simp only [h45, if_false]; omega
      rw [hnone]
      refine ⟨fun v hv => (by cases hv), fun _ => ?_⟩
      by_cases h45 : c0 = 45
      · simp [h45]
      · simp [h45]
    · have hnone : (if (IsDigits (unsigned (c0 :: rest)) ∧
          -(2 : Int) ^ 63 ≤ (if c0 = 45 then -(digitsValue (unsigned (c0 :: rest)) : Int)
              else (digitsValue (unsigned (c0 :: rest)) : Int)) ∧
          (if c0 = 45 then -(digitsValue (unsigned (c0 :: rest)) : Int)
              else (digitsValue (unsigned (c0 :: rest)) : Int)) ≤ 2 ^ 63 - 1)
          then some (if c0 = 45 then -(digitsValue (unsigned (c0 :: rest)) : Int)
              else (digitsValue (unsigned (c0 :: rest)) : Int)) else none) = none :=
        if_neg (fun h => hd h.1)
      rw [hnone]
      refine ⟨fun v hv => (by cases hv), fun _ => ?_⟩
      rcases he with he | he
      · rw [he]; simp
      · rw [he]
        by_cases h45 : c0 = 45
        · simp [h45]
        · simp [h45]


theorem bytesOf_digitChar (d : Nat) (h : d < 10) (cs : List Char) :
    bytesOf (Nat.digitChar d :: cs) = (48 + d) :: bytesOf cs := by
  have : d = 0 ∨ d = 1 ∨ d = 2 ∨ d = 3 ∨ d = 4 ∨ d = 5 ∨ d = 6 ∨ d = 7 ∨ d = 8 ∨ d = 9 := by
    omega
  rcases this with rfl | rfl | rfl | rfl | rfl | rfl | rfl | rfl | rfl | rfl <;> rfl

theorem toDigitsCore_eq_fmtLoop (f : Nat) : ∀ (u : Nat) (cs : List Char), u ≤ f →
    bytesOf (Nat.toDigitsCore 10 (f + 1) u cs) = fmtLoop f u (bytesOf cs) := by
  induction f with
  | zero =>
    intro u cs hu
    have : u = 0 := by omega
    subst this
    rfl
  | succ f ih =>
    intro u cs hu
    rw [Nat.toDigitsCore]
    simp only [fmtLoop]
    by_cases h10 : u ≥ 10
    · have hq : u / 10 ≠ 0 := by omega
      rw [if_neg hq, if_pos h10, ih (u / 10) _ (by omega),
        bytesOf_digitChar (u % 10) (Nat.mod_lt _ (by omega))]
      have e : 48 + u - u / 10 * 10 = 48 + u % 10 := by omega
      rw [e]
    · have hq : u / 10 = 0 := by omega
      rw [if_pos hq, if_neg h10, bytesOf_digitChar (u % 10) (Nat.mod_lt _ (by omega))]
      have e : u % 10 = u := Nat.mod_eq_of_lt (by omega)
      rw [e]

theorem fmtDigits_eq_decimal (u : Nat) : fmtDigits u = str (toString u) :=
  (toDigitsCore_eq_fmtLoop u u [] (Nat.le_refl u)).symm

theorem str_neg_toString (m : Nat) :
    str (toString (Int.negSucc m)) = 45 :: str (toString (m + 1)) := rfl

theorem fmtInteger_of_nonneg (m : Nat) (hm : m < 2 ^ 63) :
    fmtInteger (m : Int) = fmtDigits m := by
  unfold fmtInteger
  have hu : ((m : Int) % 2 ^ 64).toNat = m := by omega
  simp only [hu]
  have hneg : ¬ (toInt64 m < 0) := by
    rw [toInt64_of_lt m hm]; omega
  simp only [hneg, decide_False, if_false, Bool.false_eq_true, List.nil_append]

theorem fmtInteger_of_neg (m : Nat) (hm : m + 1 ≤ 2 ^ 63) :
    fmtInteger (-((m : Int) + 1)) = 45 :: fmtDigits (m + 1) := by
  unfold fmtInteger
  have hu : ((-((m : Int) + 1)) % 2 ^ 64).toNat = 2 ^ 64 - (m + 1) := by omega
  simp only [hu]
  have hneg : toInt64 (2 ^ 64 - (m + 1)) < 0 := by
    unfold toInt64
    have h1 : (2 ^ 64 - (m + 1)) % 2 ^ 64 = 2 ^ 64 - (m + 1) := Nat.mod_eq_of_lt (by omega)
    rw [h1, if_neg (by omega)]
    omega
  have hu2 : (2 ^ 64 - (2 ^ 64 - (m + 1))) % 2 ^ 64 = m + 1 := by omega
  simp only [hneg, decide_True, if_true, hu2]
  rfl

/-- On every `int64`, what `%d` prints is the decimal text of the value. -/
theorem fmtInteger_eq_decimal (v : Int) (hlo : -(2 : Int) ^ 63 ≤ v) (hhi : v ≤ 2 ^ 63 - 1) :
    fmtInteger v = decimal v := by
  cases v with
  | ofNat m =>
    have e : (Int.ofNat m) = (m : Int) := rfl
    rw [e] at hlo hhi ⊢
    rw [fmtInteger_of_nonneg m (by omega)]
    exact fmtDigits_eq_decimal m
  | negSucc m =>
    have e : Int.negSucc m = -((m : Int) + 1) := rfl
    have hm : m + 1 ≤ 2 ^ 63 := by omega
    unfold decimal
    rw [str_neg_toString, ← fmtDigits_eq_decimal, e, fmtInteger_of_neg m hm]

theorem fmtLoop_append (f : Nat) : ∀ (u : Nat) (buf : List Nat),
    fmtLoop f u buf = fmtLoop f u [] ++ buf := by
  induction f with
  | zero => intro u buf; rfl
  | succ f ih =>
    intro u buf
    simp only [fmtLoop]
    by_cases h10 : u ≥ 10
    · rw [if_pos h10, if_pos h10, ih (u / 10) (_ :: buf), ih (u / 10) [_]]
      simp
    · rw [if_neg h10, if_neg h10]; rfl

theorem digitsValueFrom_append (xs ys : List Nat) (a : Nat) :
    digitsValueFrom a (xs ++ ys) = digitsValueFrom (digitsValueFrom a xs) ys := by
  simp [digitsValueFrom, List.foldl_append]

theorem fmtLoop_spec (f : Nat) : ∀ u : Nat, u ≤ f →
    IsDigits (fmtLoop f u []) ∧ digitsValue (fmtLoop f u []) = u := by
  induction f with
  | zero =>
    intro u hu
    have : u = 0 := by omega
    subst this
    decide
  | succ f ih =>
    intro u hu
    simp only [fmtLoop]
    by_cases h10 : u ≥ 10
    · rw [if_pos h10, fmtLoop_append]
      obtain ⟨⟨hne, hd⟩, hv⟩ := ih (u / 10) (by omega)
      refine ⟨⟨by simp, ?_⟩, ?_⟩
      · intro c hc
        rcases List.mem_append.mp hc with hc | hc
        · exact hd c hc
        · have : c = 48 + u - u / 10 * 10 := by simpa using hc
          omega
      · unfold digitsValue at hv ⊢
        rw [digitsValueFrom_append, hv]
        simp only [digitsValueFrom, List.foldl_cons, List.foldl_nil]
        omega
    · rw [if_neg h10]
      refine ⟨⟨by simp, ?_⟩, ?_⟩
      · intro c hc
        have : c = 48 + u := by simpa using hc
        omega
      · simp only [digitsValue, digitsValueFrom, List.foldl_cons, List.foldl_nil]
        omega

theorem fmtDigits_spec (u : Nat) : IsDigits (fmtDigits u) ∧ digitsValue (fmtDigits u) = u :=
  fmtLoop_spec u u (Nat.le_refl u)

theorem unsigned_of_digits (s : GoString) (h : IsDigits s) : unsigned s = s := by
  cases s with
  | nil => rfl
  | cons c r =>
    have hc := h.2 c (List.mem_cons_self _ _)
    simp only [unsigned]
    rw [if_neg (by omega)]

theorem parsesAs_digits (s : GoString) (h : IsDigits s) :
    parsesAs s = if digitsValue s < 2 ^ 63 then some (digitsValue s : Int) else none := by
  have hu := unsigned_of_digits s h
  have hnv : numericValue s = (digitsValue s : Int) := by
    cases s with
    | nil => exact absurd rfl h.1
    | cons c r =>
      have hc := h.2 c (List.mem_cons_self _ _)
      rw [numericValue_cons, hu, if_neg (by omega)]
  have hd : IsDigits (unsigned s) := by rw [hu]; exact h
  unfold parsesAs IsNumeric
  rw [hnv]
  by_cases hv : digitsValue s < 2 ^ 63
  · rw [if_pos ⟨hd, by omega, by omega⟩, if_pos hv]
  · rw [if_neg (fun hh => hv (by omega)), if_neg hv]

theorem parsesAs_minus_digits (s : GoString) (h : IsDigits s) :
    parsesAs (45 :: s) =
      if digitsValue s ≤ 2 ^ 63 then some (-(digitsValue s : Int)) else none := by
  have hu : unsigned (45 :: s) = s := rfl
  have hnv : numericValue (45 :: s) = -(digitsValue s : Int) := by
    rw [numericValue_cons, hu, if_pos rfl]
  have hd : IsDigits (unsigned (45 :: s)) := by rw [hu]; exact h
  unfold parsesAs IsNumeric
  rw [hnv]
  by_cases hv : digitsValue s ≤ 2 ^ 63
  · rw [if_pos ⟨hd, by omega, by omega⟩, if_pos hv]
  · rw [if_neg (fun hh => hv (by omega)), if_neg hv]

/-- The spec-side reading of the decimal text of any integer: the integer
itself when it is an `int64`, nothing otherwise. -/
theorem parsesAs_decimal (v : Int) :
    parsesAs (decimal v) =
      if -(2 : Int) ^ 63 ≤ v ∧ v ≤ 2 ^ 63 - 1 then some v else none := by
  unfold decimal
  cases v with
  | ofNat m =>
    have e : (Int.ofNat m) = (m : Int) := rfl
    have hs : str (toString (Int.ofNat m)) = fmtDigits m := (fmtDigits_eq_decimal m).symm
    obtain ⟨hd, hval⟩ := fmtDigits_spec m
    rw [hs, parsesAs_digits _ hd, hval, e]
    by_cases hm : m < 2 ^ 63
    · rw [if_pos hm, if_pos ⟨by omega, by omega⟩]
    · rw [if_neg hm, if_neg (fun hh => hm (by omega))]
  | negSucc m =>
    have e : Int.negSucc m = -((m : Int) + 1) := rfl
    obtain ⟨hd, hval⟩ := fmtDigits_spec (m + 1)
    rw [str_neg_toString, ← fmtDigits_eq_decimal, parsesAs_minus_digits _ hd, hval, e]
    by_cases hm : m + 1 ≤ 2 ^ 63
    · rw [if_pos hm, if_pos ⟨by omega, by omega⟩]
      simp
    · rw [if_neg hm, if_neg (fun hh => hm (by omega))]

/-! ## Lemmas: the validator and the paste filter in terms of `parsesAs` -/

theorem ParseInt_of_parsesAs_some (t : GoString) (v : Int) (h : parsesAs t = some v) :
    ParseInt t = (v, none) :=
  (ParseInt_refines t).1 v h

theorem ParseInt_of_parsesAs_none (t : GoString) (h : parsesAs t = none) :
    (ParseInt t).2 ≠ none :=
  (ParseInt_refines t).2 h

theorem ParseInt_ok_iff (t : GoString) :
    (ParseInt t).2 = none ↔ (parsesAs t).isSome = true := by
  cases hp : parsesAs t with
  | none =>
    have := ParseInt_of_parsesAs_none t hp
    simp [this]
  | some v =>
    rw [ParseInt_of_parsesAs_some t v hp]
    simp

theorem parsesAs_isNumeric (t : GoString) (v : Int) (h : parsesAs t = some v) :
    IsNumeric t ∧ v = numericValue t := by
  unfold parsesAs at h
  split at h
  · rename_i hc
    cases h
    exact ⟨hc.1, rfl⟩
  · cases h

theorem parsesAs_none_of_not_numeric (t : GoString) (h : ¬ IsNumeric t) :
    parsesAs t = none := by
  unfold parsesAs
  exact if_neg (fun hc => h hc.1)

/-- The validator, as a function of the spec-side reading of the text. -/
theorem NewRangeValidator_eq (min max : Int) (text : GoString) :
    NewRangeValidator min max text =
      match parsesAs text with
      | none => some (str "not a valid number")
      | some v =>
        if v < min then some (str "must be greater than " ++ fmtInteger min)
        else if v > max then some (str "must be lesser than " ++ fmtInteger max)
        else none := by
  cases hp : parsesAs text with
  | none =>
    have h := ParseInt_of_parsesAs_none text hp
    simp only [NewRangeValidator]
    rw [if_pos h]
  | some v =>
    have h := ParseInt_of_parsesAs_some text v hp
    simp only [NewRangeValidator, h]
    simp

theorem pasteForwarded_iff (c : GoString) :
    pasteForwarded c ↔ (ParseInt c).2 = none := by
  unfold pasteForwarded
  simp only [integerEntry.TypedShortcut, recorder]
  by_cases h : (ParseInt c).2 = none
  · simp [h]
  · simp [h]

theorem runeForwarded_iff (r : Int) : runeForwarded r ↔ 48 ≤ r ∧ r ≤ 57 := by
  unfold runeForwarded
  simp only [integerEntry.TypedRune, recorder]
  by_cases h : 48 ≤ r ∧ r ≤ 57
  · have h2 : r = 48 ∨ r = 49 ∨ r = 50 ∨ r = 51 ∨ r = 52 ∨ r = 53 ∨ r = 54 ∨ r = 55 ∨ r = 56
        ∨ r = 57 := by omega
    simp [h, h2]
  · have h2 : ¬ (r = 48 ∨ r = 49 ∨ r = 50 ∨ r = 51 ∨ r = 52 ∨ r = 53 ∨ r = 54 ∨ r = 55 ∨ r = 56
        ∨ r = 57) := by omega
    simp [h, h2]

/-! ## The claims -/

/-- C1: for 64-bit `min` and `max` and every text, the validator of
`NewRangeValidator(min, max)` returns exactly one of four outcomes: "not a
valid number" when the text does not parse as a base-10 signed 64-bit integer;
otherwise, with `v` the parsed value, "must be greater than <min>" (decimal)
when `v < min`; otherwise "must be lesser than <max>" when `v > max`; otherwise
no error.  So the text is valid exactly when it parses to a `v` with
`min ≤ v ≤ max`, and when `v < min` and `v > max` both hold the "greater than"
message wins. -/
theorem NewRangeValidator_outcomes (min max : Int) (text : GoString)
    (hmin : -(2 : Int) ^ 63 ≤ min ∧ min ≤ 2 ^ 63 - 1)
    (hmax : -(2 : Int) ^ 63 ≤ max ∧ max ≤ 2 ^ 63 - 1) :
    (NewRangeValidator min max text =
      match parsesAs text with
      | none => some (str "not a valid number")
      | some v =>
        if v < min then some (str "must be greater than " ++ decimal min)
        else if v > max then some (str "must be lesser than " ++ decimal max)
        else none) ∧
    (NewRangeValidator min max text = none ↔
      ∃ v, parsesAs text = some v ∧ min ≤ v ∧ v ≤ max) ∧
    (∀ v, parsesAs text = some v → v < min → v > max →
      NewRangeValidator min max text = some (str "must be greater than " ++ decimal min)) := by
  rw [NewRangeValidator_eq, fmtInteger_eq_decimal min hmin.1 hmin.2,
    fmtInteger_eq_decimal max hmax.1 hmax.2]
  refine ⟨rfl, ?_, ?_⟩
  · cases hp : parsesAs text with
    | none => simp
    | some v =>
      by_cases h1 : v < min
      · simp only [h1, if_true]
        constructor
        · intro h; cases h
        · rintro ⟨v2, hv2, hge, _⟩
          cases hv2; omega
      · by_cases h2 : v > max
        · simp only [h1, h2, if_true, if_false]
          constructor
          · intro h; cases h
          · rintro ⟨v2, hv2, _, hle⟩
            cases hv2; omega
        · simp only [h1, h2, if_false]
          exact ⟨fun _ => ⟨v, rfl, by omega, by omega⟩, fun _ => trivial⟩
  · intro v hv h1 _
    rw [hv]
    simp only [h1, if_true]

/-- Witness for C1: the four outcomes at `min = 0`, `max = 999`, and the
"greater than" message winning at `min = 5`, `max = 1`. -/
theorem NewRangeValidator_outcomes_witness :
    NewRangeValidator 0 999 (str "1000") = some (str "must be lesser than 999") ∧
    NewRangeValidator 0 999 (str "-1") = some (str "must be greater than 0") ∧
    NewRangeValidator 0 999 (str "999") = none ∧
    NewRangeValidator 0 999 (str "9223372036854775808") = some (str "not a valid number") ∧
    NewRangeValidator 5 1 (str "3") = some (str "must be greater than 5") :=
  ⟨(NewRangeValidator_outcomes 0 999 (str "1000") (by decide) (by decide)).1.trans (by decide),
   (NewRangeValidator_outcomes 0 999 (str "-1") (by decide) (by decide)).1.trans (by decide),
   (NewRangeValidator_outcomes 0 999 (str "999") (by decide) (by decide)).1.trans (by decide),
   (NewRangeValidator_outcomes 0 999 (str "9223372036854775808") (by decide)
      (by decide)).1.trans (by decide),
   (NewRangeValidator_outcomes 5 1 (str "3") (by decide) (by decide)).2.2 3 (by decide)
      (by decide) (by decide) |>.trans (by decide)⟩

/-- C2, as the claim states it, fails: the integer 2^63 is greater than 999,
yet the validator of `NewRangeValidator(0, 999)` answers its decimal text with
"not a valid number", not with the upper-bound message. -/
theorem NewRangeValidator_0_999_counterexample :
    (9223372036854775808 : Int) > 999 ∧
    NewRangeValidator 0 999 (decimal 9223372036854775808) = some (str "not a valid number") ∧
    NewRangeValidator 0 999 (decimal 9223372036854775808)
      ≠ some (str "must be lesser than 999") := by
  decide

set_option maxRecDepth 4096 in
theorem message_greater_0 :
    some (str "must be greater than " ++ fmtInteger 0) = some (str "must be greater than 0") := by
  decide

set_option maxRecDepth 4096 in
theorem message_lesser_999 :
    some (str "must be lesser than " ++ fmtInteger 999) = some (str "must be lesser than 999") := by
  decide

/-- C2, amended: on the decimal text of an integer `v`, the validator of
`NewRangeValidator(0, 999)` succeeds when `0 ≤ v ≤ 999`, fails with "must be
greater than 0" when `-2^63 ≤ v < 0`, fails with "must be lesser than 999"
when `999 < v ≤ 2^63 - 1`, and fails with "not a valid number" when `v` is
outside the signed 64-bit range. -/
theorem NewRangeValidator_0_999 (v : Int) :
    (0 ≤ v ∧ v ≤ 999 → NewRangeValidator 0 999 (decimal v) = none) ∧
    (-(2 : Int) ^ 63 ≤ v ∧ v < 0 →
      NewRangeValidator 0 999 (decimal v) = some (str "must be greater than 0")) ∧
    (999 < v ∧ v ≤ 2 ^ 63 - 1 →
      NewRangeValidator 0 999 (decimal v) = some (str "must be lesser than 999")) ∧
    (v < -(2 : Int) ^ 63 ∨ 2 ^ 63 - 1 < v →
      NewRangeValidator 0 999 (decimal v) = some (str "not a valid number")) := by
  rw [NewRangeValidator_eq, parsesAs_decimal]
  refine ⟨fun h => ?_, fun h => ?_, fun h => ?_, fun h => ?_⟩
  · rw [if_pos ⟨by omega, by omega⟩]
    simp only
    rw [if_neg (by omega), if_neg (by omega)]
  · rw [if_pos ⟨by omega, by omega⟩]
    simp only
    rw [if_pos (by omega)]
    exact message_greater_0
  · rw [if_pos ⟨by omega, by omega⟩]
    simp only
    rw [if_neg (by omega), if_pos (by omega)]
    exact message_lesser_999
  · rw [if_neg (by omega)]

/-- Instances of C2 amended: the ends of each of the four ranges. -/
theorem NewRangeValidator_0_999_witness :
    NewRangeValidator 0 999 (decimal 0) = none ∧
    NewRangeValidator 0 999 (decimal 999) = none ∧
    NewRangeValidator 0 999 (decimal (-1)) = some (str "must be greater than 0") ∧
    NewRangeValidator 0 999 (decimal (-9223372036854775808))
      = some (str "must be greater than 0") ∧
    NewRangeValidator 0 999 (decimal 1000) = some (str "must be lesser than 999") ∧
    NewRangeValidator 0 999 (decimal 9223372036854775807)
      = some (str "must be lesser than 999") ∧
    NewRangeValidator 0 999 (decimal (-9223372036854775809))
      = some (str "not a valid number") :=
  ⟨(NewRangeValidator_0_999 0).1 (by decide),
   (NewRangeValidator_0_999 999).1 (by decide),
   (NewRangeValidator_0_999 (-1)).2.1 (by decide),
   (NewRangeValidator_0_999 (-9223372036854775808)).2.1 (by decide),
   (NewRangeValidator_0_999 1000).2.2.1 (by decide),
   (NewRangeValidator_0_999 9223372036854775807).2.2.1 (by decide),
   (NewRangeValidator_0_999 (-9223372036854775809)).2.2.2 (by decide)⟩

/-- C3: for every `min` and `max` and every text that is not an optional
single leading `+` or `-` followed by one or more ASCII digits, the validator
of `NewRangeValidator(min, max)` fails with exactly "not a valid number". -/
theorem NewRangeValidator_non_numeric (min max : Int) (text : GoString)
    (h : ¬ IsNumeric text) :
    NewRangeValidator min max text = some (str "not a valid number") := by
  rw [NewRangeValidator_eq, parsesAs_none_of_not_numeric text h]

/-- Witness for C3: the non-numeric texts the claim lists, under the bounds of
the form. -/
theorem NewRangeValidator_non_numeric_witness :
    NewRangeValidator 0 999 (str "") = some (str "not a valid number") ∧
    NewRangeValidator 0 999 (str "abc") = some (str "not a valid number") ∧
    NewRangeValidator 0 999 (str "12.3") = some (str "not a valid number") ∧
    NewRangeValidator 0 999 (str " 5") = some (str "not a valid number") ∧
    NewRangeValidator 0 999 (str "1_000") = some (str "not a valid number") ∧
    NewRangeValidator 0 999 (str "0x10") = some (str "not a valid number") ∧
    NewRangeValidator 0 999 (str "-") = some (str "not a valid number") :=
  ⟨NewRangeValidator_non_numeric 0 999 (str "") (by decide),
   NewRangeValidator_non_numeric 0 999 (str "abc") (by decide),
   NewRangeValidator_non_numeric 0 999 (str "12.3") (by decide),
   NewRangeValidator_non_numeric 0 999 (str " 5") (by decide),
   NewRangeValidator_non_numeric 0 999 (str "1_000") (by decide),
   NewRangeValidator_non_numeric 0 999 (str "0x10") (by decide),
   NewRangeValidator_non_numeric 0 999 (str "-") (by decide)⟩

/-- C4: for every preference triple `p` and every prior state of the store,
`Load()` after `Save(p)` returns exactly `p`. -/
theorem Load_Save (p : Pref) (app : Preferences) : Load (Save p app) = p := by
  cases p
  rfl

/-- C5: `Load()` is total and, field by field, returns the stored integer when
the key is set and the default (25, 5, 60) when it is unset, whatever the
other keys hold; on the empty store it returns {25, 5, 60}. -/
theorem Load_defaults (app : Preferences) :
    ((Load app).workMinutes =
      match app "workMinutes" with
      | some v => v
      | none => 25) ∧
    ((Load app).breakMinutes =
      match app "breakMinutes" with
      | some v => v
      | none => 5) ∧
    ((Load app).forceWindowFocusDuration =
      match app "forceWindowFocusDuration" with
      | some v => v
      | none => 60) ∧
    Load Preferences.empty =
      { workMinutes := 25, breakMinutes := 5, forceWindowFocusDuration := 60 } :=
  ⟨rfl, rfl, rfl, rfl⟩

/-- C6: for every rune `r`, `integerEntry.TypedRune(r)` hands `r` unchanged to
the underlying entry when `r` is one of `'0'`..`'9'` and otherwise leaves the
entry as it was; so the underlying entry receives the call exactly for the
ten ASCII digits, and letters, `-`, `+`, `.`, the space and the Arabic-Indic
digit three are dropped. -/
theorem TypedRune_digits_only (r : Int) :
    (∀ (σ : Type) (E : Entry σ) (e : σ),
      integerEntry.TypedRune E r e = if 48 ≤ r ∧ r ≤ 57 then E.TypedRune r e else e) ∧
    (∀ log : List Call,
      integerEntry.TypedRune recorder r log = log ++ [Call.TypedRune r] ↔ 48 ≤ r ∧ r ≤ 57) ∧
    (∀ log : List Call, ¬ (48 ≤ r ∧ r ≤ 57) → integerEntry.TypedRune recorder r log = log) ∧
    (∀ c ∈ ['a', 'Z', '-', '+', '.', ' ', '٣'],
      integerEntry.TypedRune recorder (c.toNat : Int) [] = []) ∧
    (∀ c ∈ ['0', '1', '2', '3', '4', '5', '6', '7', '8', '9'],
      integerEntry.TypedRune recorder (c.toNat : Int) [] = [Call.TypedRune (c.toNat : Int)]) := by
  have key : ∀ (σ : Type) (E : Entry σ) (e : σ),
      integerEntry.TypedRune E r e = if 48 ≤ r ∧ r ≤ 57 then E.TypedRune r e else e := by
    intro σ E e
    unfold integerEntry.TypedRune
    by_cases h : 48 ≤ r ∧ r ≤ 57
    · rw [if_pos h, if_pos (by omega)]
    · rw [if_neg h, if_neg (by omega)]
  refine ⟨key, ?_, ?_, by decide, by decide⟩
  · intro log
    rw [key]
    by_cases h : 48 ≤ r ∧ r ≤ 57
    · rw [if_pos h]
      exact ⟨fun _ => h, fun _ => rfl⟩
    · rw [if_neg h]
      constructor
      · intro heq
        have hlen := congrArg List.length heq
        simp at hlen
      · intro h2
        exact absurd h2 h
  · intro log h
    rw [key, if_neg h]

/-- C7: a paste shortcut with clipboard content `c` is handed to the
underlying entry exactly when the whole of `c` parses as a base-10 integer in
the signed 64-bit range, and is otherwise dropped with the entry unchanged; a
paste of "abc" or "12.3" is rejected, a paste of "123" is accepted; a shortcut
that is not a paste is always handed on. -/
theorem TypedShortcut_paste_filter (c : GoString) :
    (∀ (σ : Type) (E : Entry σ) (e : σ),
      integerEntry.TypedShortcut E (Shortcut.ShortcutPaste c) e =
        if (parsesAs c).isSome then E.TypedShortcut (Shortcut.ShortcutPaste c) e else e) ∧
    (∀ log : List Call,
      integerEntry.TypedShortcut recorder (Shortcut.ShortcutPaste c) log
          = log ++ [Call.TypedShortcut (Shortcut.ShortcutPaste c)]
        ↔ (parsesAs c).isSome) ∧
    (∀ log : List Call, parsesAs c = none →
      integerEntry.TypedShortcut recorder (Shortcut.ShortcutPaste c) log = log) ∧
    (¬ pasteForwarded (str "abc") ∧ pasteForwarded (str "123") ∧
      ¬ pasteForwarded (str "12.3")) ∧
    (∀ (name : GoString) (σ : Type) (E : Entry σ) (e : σ),
      integerEntry.TypedShortcut E (Shortcut.Other name) e
        = E.TypedShortcut (Shortcut.Other name) e) := by
  have key : ∀ (σ : Type) (E : Entry σ) (e : σ),
      integerEntry.TypedShortcut E (Shortcut.ShortcutPaste c) e =
        if (parsesAs c).isSome then E.TypedShortcut (Shortcut.ShortcutPaste c) e else e := by
    intro σ E e
    simp only [integerEntry.TypedShortcut]
    by_cases h : (ParseInt c).2 = none
    · rw [if_pos h, if_pos ((ParseInt_ok_iff c).mp h)]
    · rw [if_neg h, if_neg (fun hh => h ((ParseInt_ok_iff c).mpr hh))]
  refine ⟨key, ?_, ?_, by decide, fun _ _ _ _ => rfl⟩
  · intro log
    rw [key]
    by_cases h : (parsesAs c).isSome = true
    · rw [if_pos h]
      exact ⟨fun _ => h, fun _ => rfl⟩
    · rw [if_neg h]
      constructor
      · intro heq
        have hlen := congrArg List.length heq
        simp at hlen
      · intro h2
        exact absurd h2 h
  · intro log h
    rw [key, h]
    rfl

/-- C8: for a form built by `makeForm` on the store `s`, once only the
work-minutes bound value is changed to `w` and the submit handler runs, the
store holds `workMinutes = w` and `Load` reads back for the other two fields
what it returned on `s`; after any submit `Load` returns exactly the three
bound values read at submit time; and on the empty store the form shows
25/5/60 and, with `w = 50`, `Load` afterwards returns {50, 5, 60}. -/
theorem OnSubmit_persists_bound_values {H : Type} (env : Host H) (s : Preferences) (w : Int)
    (h : H) :
    (((makeForm s).setWorkMinutes w).OnSubmit env { prefs := s, host := h }).prefs "workMinutes"
      = some w ∧
    (Load (((makeForm s).setWorkMinutes w).OnSubmit env { prefs := s, host := h }).prefs).breakMinutes
      = (Load s).breakMinutes ∧
    (Load (((makeForm s).setWorkMinutes w).OnSubmit env
        { prefs := s, host := h }).prefs).forceWindowFocusDuration
      = (Load s).forceWindowFocusDuration ∧
    (∀ (form : Form) (world : World H), Load (form.OnSubmit env world).prefs = form.bound) ∧
    (makeForm Preferences.empty).bound
      = { workMinutes := 25, breakMinutes := 5, forceWindowFocusDuration := 60 } ∧
    Load (((makeForm Preferences.empty).setWorkMinutes 50).OnSubmit env
        { prefs := Preferences.empty, host := h }).prefs
      = { workMinutes := 50, breakMinutes := 5, forceWindowFocusDuration := 60 } :=
  ⟨rfl, rfl, rfl, fun _ _ => rfl, rfl, rfl⟩

/-- C9, as the claim states it, fails: `Save` writes whatever it is given, so
after `Save({-1, 1000, 60})` on the empty store the stored `workMinutes` is
-1, and the same happens when the submit handler runs on those bound values. -/
theorem stored_range_counterexample :
    ¬ StoredInRange
        (Save { workMinutes := -1, breakMinutes := 1000, forceWindowFocusDuration := 60 }
          Preferences.empty) ∧
    Save { workMinutes := -1, breakMinutes := 1000, forceWindowFocusDuration := 60 }
        Preferences.empty "workMinutes" = some (-1) ∧
    ¬ StoredInRange
        (Form.OnSubmit (Host.mk id (fun _ x => x) id)
          { workMinutesBinding := -1, breakMinutesBinding := 1000,
            forceWindowFocusDurationBinding := 60, Items := [] }
          { prefs := Preferences.empty, host := () }).prefs := by
  refine ⟨?_, rfl, ?_⟩
  · intro hall
    obtain ⟨v, hv, hr⟩ := hall "workMinutes" (by decide)
    have e : v = -1 := (Option.some.inj hv).symm
    subst e
    exact absurd hr (by decide)
  · intro hall
    obtain ⟨v, hv, hr⟩ := hall "workMinutes" (by decide)
    have e : v = -1 := (Option.some.inj hv).symm
    subst e
    exact absurd hr (by decide)

theorem StoredInRange_Save (p : Pref) (app : Preferences)
    (hw : InRange p.workMinutes) (hb : InRange p.breakMinutes)
    (hf : InRange p.forceWindowFocusDuration) : StoredInRange (Save p app) := by
  intro key hkey
  simp only [List.mem_cons, List.mem_singleton, List.not_mem_nil, or_false] at hkey
  rcases hkey with rfl | rfl | rfl
  · exact ⟨p.workMinutes, rfl, hw⟩
  · exact ⟨p.breakMinutes, rfl, hb⟩
  · exact ⟨p.forceWindowFocusDuration, rfl, hf⟩

/-- C9, amended: after `Save(p)` for a `p` whose three fields lie in 0..999,
and after the submit handler of a form whose three bound values are those of
`p`, each of the three stored preferences is an integer within 0..999, namely
the corresponding field of `p`. -/
theorem stored_in_range_of_in_range {H : Type} (env : Host H) (p : Pref) (world : World H)
    (items : List FormItem)
    (hw : InRange p.workMinutes) (hb : InRange p.breakMinutes)
    (hf : InRange p.forceWindowFocusDuration) :
    StoredInRange (Save p world.prefs) ∧
    StoredInRange
      (Form.OnSubmit env
        { workMinutesBinding := p.workMinutes, breakMinutesBinding := p.breakMinutes,
          forceWindowFocusDurationBinding := p.forceWindowFocusDuration, Items := items }
        world).prefs ∧
    Save p world.prefs "workMinutes" = some p.workMinutes ∧
    Save p world.prefs "breakMinutes" = some p.breakMinutes ∧
    Save p world.prefs "forceWindowFocusDuration" = some p.forceWindowFocusDuration :=
  ⟨StoredInRange_Save p world.prefs hw hb hf, StoredInRange_Save p world.prefs hw hb hf,
    rfl, rfl, rfl⟩

/-- Witness for C9 amended: the triple {50, 5, 999} saved over the empty
store, with a host that does nothing. -/
theorem stored_in_range_of_in_range_witness :
    StoredInRange
      (Save { workMinutes := 50, breakMinutes := 5, forceWindowFocusDuration := 999 }
        Preferences.empty) ∧
    StoredInRange
      (Form.OnSubmit (Host.mk id (fun _ x => x) id)
        { workMinutesBinding := 50, breakMinutesBinding := 5,
          forceWindowFocusDurationBinding := 999, Items := [] }
        { prefs := Preferences.empty, host := () }).prefs :=
  ⟨(stored_in_range_of_in_range (Host.mk id (fun _ x => x) id)
      { workMinutes := 50, breakMinutes := 5, forceWindowFocusDuration := 999 }
      { prefs := Preferences.empty, host := () } [] (by decide) (by decide) (by decide)).1,
   (stored_in_range_of_in_range (Host.mk id (fun _ x => x) id)
      { workMinutes := 50, breakMinutes := 5, forceWindowFocusDuration := 999 }
      { prefs := Preferences.empty, host := () } [] (by decide) (by decide) (by decide)).2.1⟩

theorem pasteForwarded_parsesAs (c : GoString) (h : pasteForwarded c) :
    ∃ v, parsesAs c = some v ∧ IsNumeric c ∧ v = numericValue c := by
  have h1 := (ParseInt_ok_iff c).mp ((pasteForwarded_iff c).mp h)
  cases hp : parsesAs c with
  | none => rw [hp] at h1; cases h1
  | some v => exact ⟨v, rfl, parsesAs_isNumeric c v hp⟩

/-- C10: the two input filters of `integerEntry` disagree on signs.  A paste
of "-5" or of "+5" is accepted although typing `-` or `+` is dropped; every
accepted paste is an optional single leading `+` or `-` followed by one or
more ASCII digits; an accepted paste consists only of characters the rune
filter accepts exactly when it has no leading sign; and of the accepted
pastes the validator of `NewRangeValidator(0, 999)` rejects every one with a
`-` sign and a non-zero value, while it accepts "+5" and "-0". -/
theorem filters_disagree_on_signs :
    (pasteForwarded (str "-5") ∧ ¬ runeForwarded 45) ∧
    (pasteForwarded (str "+5") ∧ ¬ runeForwarded 43) ∧
    (∀ c : GoString, pasteForwarded c → IsNumeric c) ∧
    (∀ c : GoString, pasteForwarded c →
      ((∀ b ∈ c, runeForwarded (b : Int)) ↔ (c.head? ≠ some 43 ∧ c.head? ≠ some 45))) ∧
    (∀ c : GoString, pasteForwarded c → c.head? = some 45 → numericValue c ≠ 0 →
      NewRangeValidator 0 999 c = some (str "must be greater than 0")) ∧
    (pasteForwarded (str "-0") ∧ NewRangeValidator 0 999 (str "-0") = none) ∧
    NewRangeValidator 0 999 (str "+5") = none := by
  refine ⟨by decide, by decide, ?_, ?_, ?_, by decide, by decide⟩
  · intro c hc
    obtain ⟨v, _, hn, _⟩ := pasteForwarded_parsesAs c hc
    exact hn
  · intro c hc
    obtain ⟨v, _, hn, _⟩ := pasteForwarded_parsesAs c hc
    cases c with
    | nil => exact absurd rfl hn.1
    | cons c0 rest =>
      by_cases hs : c0 = 43 ∨ c0 = 45
      · constructor
        · intro hall
          have h0 := (runeForwarded_iff (c0 : Int)).mp (hall c0 (List.mem_cons_self _ _))
          omega
        · intro hno
          simp only [List.head?_cons, ne_eq, Option.some.injEq] at hno
          omega
      · have hu : unsigned (c0 :: rest) = c0 :: rest := by
          simp only [unsigned]
          rw [if_neg hs]
        have hd : IsDigits (c0 :: rest) := by
          have := hn
          unfold IsNumeric at this
          rw [hu] at this
          exact this
        constructor
        · intro _
          simp only [List.head?_cons, ne_eq, Option.some.injEq]
          omega
        · intro _ b hb
          have := hd.2 b hb
          exact (runeForwarded_iff (b : Int)).mpr (by omega)
  · intro c hc hhead hnz
    obtain ⟨v, hp, _, hv⟩ := pasteForwarded_parsesAs c hc
    have hneg : v < 0 := by
      rw [hv]
      unfold numericValue at hnz ⊢
      rw [if_pos hhead] at hnz ⊢
      omega
    rw [NewRangeValidator_eq, hp]
    simp only [hneg, if_true]
    exact message_greater_0

end WorkBreakTimer
